import Mathlib

/-!
Verification of the LFDT-TAC-Agent correlation-and-pipeline engine
(src/agent.py) against its natural-language specification.

The Python code is shallowly embedded:
* strings are Lean `String`s manipulated through explicit `List Char`
  primitives (ASCII semantics, which covers every input the program's
  regexes and the specification's test vectors involve);
* the two regular expressions of `ReportExtractor` have disjoint
  character classes around every quantifier, so greedy matching without
  backtracking is exact and they are embedded as take/drop-while scanners;
* the external collaborators (ReportSource transport and the Inference
  Service) are oracles: each transport read is an `Except ε` value fixed
  per call argument, and the Inference Service is a state-threaded
  function `σ → String → σ × Except ε String` so that determinism is a
  property one can hypothesise rather than bake in;
* Python exceptions are the `Except` error path; an uncaught exception
  propagates exactly where the embedded `match` on `.error` propagates.
-/

/-! ## ASCII character classes (Python `\w`, `\s`, upper case) -/

/-- Python `\w` on ASCII: `[a-zA-Z0-9_]`. -/
def isWordChar (c : Char) : Bool :=
  decide ((97 ≤ c.toNat ∧ c.toNat ≤ 122) ∨ (65 ≤ c.toNat ∧ c.toNat ≤ 90) ∨
    (48 ≤ c.toNat ∧ c.toNat ≤ 57) ∨ c.toNat = 95)

/-- The class `[\w\-]` of both regexes in `ReportExtractor`. -/
def isWordHyphen (c : Char) : Bool :=
  isWordChar c || decide (c.toNat = 45)

/-- Python `\s` on ASCII: space, tab, newline, carriage return, vertical
tab, form feed. -/
def isPySpace (c : Char) : Bool :=
  decide (c.toNat = 32 ∨ c.toNat = 9 ∨ c.toNat = 10 ∨ c.toNat = 13 ∨
    c.toNat = 11 ∨ c.toNat = 12)

/-- The class `[\s:]` closing the title regex `^([\w\-]+)[\s:]+`. -/
def isSpaceColon (c : Char) : Bool :=
  isPySpace c || decide (c.toNat = 58)

/-- An ASCII upper-case letter. -/
def isUpperChar (c : Char) : Bool :=
  decide (65 ≤ c.toNat ∧ c.toNat ≤ 90)

/-- Python `str.lower` on one ASCII character. -/
def lowerChar (c : Char) : Char :=
  if 65 ≤ c.toNat ∧ c.toNat ≤ 90 then Char.ofNat (c.toNat + 32) else c

theorem charOfNat_toNat (n : Nat) (h : n < 55296) : (Char.ofNat n).toNat = n := by
  unfold Char.ofNat
  rw [dif_pos (Or.inl h)]
  rfl

theorem lowerChar_not_upper (c : Char) : isUpperChar (lowerChar c) = false := by
  unfold lowerChar
  split
  · next h =>
    unfold isUpperChar
    rw [decide_eq_false_iff_not, charOfNat_toNat (c.toNat + 32) (by omega)]
    omega
  · next h =>
    unfold isUpperChar
    rw [decide_eq_false_iff_not]
    exact h

/-! ## String primitives over `List Char` -/

/-- Python `str.lower` (ASCII). -/
def pyLower (s : String) : String :=
  String.mk (s.toList.map lowerChar)

/-- Drop from the back of a list while the predicate holds. -/
def dropTrail (p : Char → Bool) (l : List Char) : List Char :=
  (l.reverse.dropWhile p).reverse

/-- Strip a character class from both ends. -/
def stripWhile (p : Char → Bool) (l : List Char) : List Char :=
  dropTrail p (l.dropWhile p)

/-- Python `str.strip()` (ASCII whitespace). -/
def pyStrip (s : String) : String :=
  String.mk (stripWhile isPySpace s.toList)

/-- Python `str.split(sep)` for a one-character separator, accumulator form. -/
def splitOnCharAux (sep : Char) : List Char → List Char → List (List Char)
  | acc, [] => [acc.reverse]
  | acc, c :: cs =>
    if c = sep then acc.reverse :: splitOnCharAux sep [] cs
    else splitOnCharAux sep (c :: acc) cs

/-- Python `str.split(sep)` for a one-character separator. -/
def splitOnChar (sep : Char) (l : List Char) : List (List Char) :=
  splitOnCharAux sep [] l

/-- Python `str.splitlines()` for newline-separated text (the schedule
document convention); a trailing newline yields one trailing empty line,
which every consumer below skips. -/
def splitLines (s : String) : List String :=
  (splitOnChar (Char.ofNat 10) s.toList).map String.mk

/-- Python `re.split(r"\W+", s)`, accumulator form: `false` while inside a
word token, `true` while skipping a separator run. -/
def splitNWAux : Bool → List Char → List Char → List (List Char)
  | _, acc, [] => [acc.reverse]
  | inSep, acc, c :: cs =>
    if isWordChar c then
      if inSep then splitNWAux false [c] cs else splitNWAux false (c :: acc) cs
    else
      if inSep then splitNWAux true [] cs
      else acc.reverse :: splitNWAux true [] cs

/-- Python `re.split(r"\W+", s)` over the characters of `s`. -/
def splitNonWord (l : List Char) : List (List Char) :=
  splitNWAux false [] l

/-- Substring test at each suffix: `needle` occurs in `hay` (Python `in`). -/
def infixCheck (needle : List Char) : List Char → Bool
  | [] => needle.isEmpty
  | l@(_ :: cs) => needle.isPrefixOf l || infixCheck needle cs

/-- Python `needle in hay` for strings. -/
def strContains (hay needle : String) : Bool :=
  infixCheck needle.toList hay.toList

theorem infixCheck_subset {needle hay : List Char} (h : infixCheck needle hay = true)
    {x : Char} (hx : x ∈ needle) : x ∈ hay := by
  induction hay with
  | nil =>
    unfold infixCheck at h
    rw [List.isEmpty_iff] at h
    subst h
    cases hx
  | cons c cs ih =>
    unfold infixCheck at h
    rw [Bool.or_eq_true] at h
    rcases h with h | h
    · have hpre : needle <+: c :: cs := List.isPrefixOf_iff_prefix.mp h
      exact hpre.sublist.subset hx
    · exact List.mem_cons_of_mem c (ih h)

theorem mem_pyLower_toList {s : String} {x : Char} (hx : x ∈ (pyLower s).toList) :
    ∃ y, x = lowerChar y := by
  unfold pyLower at hx
  have : x ∈ s.toList.map lowerChar := hx
  rcases List.mem_map.mp this with ⟨y, _, hy⟩
  exact ⟨y, hy.symm⟩

/-! ## Data model (src/agent.py, §3 of the spec)

A pull request carries a number (absent when the JSON object has no
`"number"` key), title, body and description; `dict.get(key, "")` on an
absent text key is the empty string. A repository/PR file descriptor
carries its `"type"` and `"name"` fields. -/

structure PullRequest where
  number : Option Nat
  title : String
  body : String
  description : String

structure FileInfo where
  typ : String
  name : String
  deriving DecidableEq

/-- The external collaborators of the engine, as oracles (spec §6).
`schedule` is the composition `get_file_by_path` + `get_file_content` for
the schedule document path; `repoFiles` is `GitHubClient.list_repo_files()`;
`openPRs` is `get_open_pull_requests()`; `getPrFiles` is `get_pr_files`;
`getFileContent` is `get_file_content` on one descriptor. `gen` is the
Inference Service (`requests.post` to `/api/generate` in
`analyze_single_report` / `analyze_reports`): it threads a service state σ
and may fail. An `.error` value is a Python exception raised by that call. -/
structure Env (σ ε : Type) where
  schedule : Except ε String
  repoFiles : Except ε (List FileInfo)
  openPRs : Except ε (List PullRequest)
  getPrFiles : Nat → Except ε (List FileInfo)
  getFileContent : FileInfo → Except ε String
  gen : σ → String → σ × Except ε String

/-! ## ReportExtractor.extract_project_name_from_pr (src/agent.py:142-159) -/

/-- `re.match(r"([\w\-]+)[\s:]+", title)`: the classes `[\w\-]` and `[\s:]`
are disjoint, so the greedy match is the maximal leading `[\w\-]` run
followed by at least one `[\s:]` character. Returns `group(1)`. -/
def matchLeadingToken (l : List Char) : Option (List Char) :=
  let tok := l.takeWhile isWordHyphen
  let rest := l.dropWhile isWordHyphen
  if tok.isEmpty then none
  else
    match rest with
    | [] => none
    | c :: _ => if isSpaceColon c then some tok else none

/-- Case-insensitive match of a lower-case ASCII literal at the head of the
text (the `re.IGNORECASE` flag); returns the rest of the text. -/
def matchCI : List Char → List Char → Option (List Char)
  | [], l => some l
  | _ :: _, [] => none
  | p :: ps, c :: cs => if lowerChar c = p then matchCI ps cs else none

/-- One anchored attempt of `re.search(r"project\s*name\s*[:\-]\s*([\w\-]+)",
body, re.IGNORECASE)`: literal `project`, optional space, literal `name`,
optional space, one of `:`/`-`, optional space, then the captured `[\w\-]+`
token. All quantifier boundaries have disjoint classes, so maximal munch is
exact. -/
def bodyPatternAt (l : List Char) : Option (List Char) :=
  match matchCI ("project".toList) l with
  | none => none
  | some r1 =>
    match matchCI ("name".toList) (r1.dropWhile isPySpace) with
    | none => none
    | some r3 =>
      match r3.dropWhile isPySpace with
      | [] => none
      | c :: r5 =>
        if c = ':' ∨ c = '-' then
          let tok := (r5.dropWhile isPySpace).takeWhile isWordHyphen
          if tok.isEmpty then none else some tok
        else none

/-- `re.search`: the leftmost position where the pattern matches. -/
def searchBodyPattern : List Char → Option (List Char)
  | [] => none
  | l@(_ :: cs) =>
    match bodyPatternAt l with
    | some tok => some tok
    | none => searchBodyPattern cs

/-- `if candidate and candidate.lower() != "create"` on an optional captured
token. -/
def usableToken : Option String → Bool
  | some c => (c != "") && (pyLower c != "create")
  | none => false

/-- `ReportExtractor.extract_project_name_from_pr(pr, llm_engine)`. The
optional `llmInfer` is `llm_engine.infer_project_name(title, body)`. -/
def extract_project_name_from_pr (pr : PullRequest)
    (llmInfer : Option (String → String → String)) : Option String :=
  let candidate := (matchLeadingToken pr.title.toList).map String.mk
  if usableToken candidate then candidate
  else
    let candidateBody := (searchBodyPattern pr.body.toList).map String.mk
    if usableToken candidateBody then candidateBody
    else
      match llmInfer with
      | some f => some (f pr.title pr.body)
      | none => none

/-! ## ReportExtractor.list_possible_projects (src/agent.py:161-205) -/

/-- Insertion into the Python `set`, modelled as an insertion-ordered
duplicate-free list. -/
def insertUniq (l : List String) (x : String) : List String :=
  if x ∈ l then l else l ++ [x]

/-- Python `list.index` for the guarded `header_cols.index("project")`. -/
def idxOfStr (x : String) : List String → Nat
  | [] => 0
  | y :: ys => if y = x then 0 else idxOfStr x ys + 1

/-- `line.strip("|").split("|")` with each column `.strip()`-ed. -/
def splitPipes (line : String) : List String :=
  ((splitOnChar '|' (stripWhile (fun c => c = '|') line.toList)).map String.mk).map pyStrip

/-- The header normalisation `[col.strip().lower() for col in ...]`. -/
def normCols (line : String) : List String :=
  (splitPipes line).map pyLower

/-- `re.match(r"^\s*[-|]+\s*$", line)`: optional space, a nonempty run of
`-`/`|`, optional trailing space, end of line. -/
def isSepLine (line : String) : Bool :=
  let l := line.toList.dropWhile isPySpace
  let m := l.takeWhile (fun c => c = '-' || c = '|')
  let r := l.dropWhile (fun c => c = '-' || c = '|')
  (!m.isEmpty) && r.all isPySpace

/-- `re.match(r"^[\-\s]+$", project_name)`: only dashes and whitespace. -/
def isDashSpaceRun (s : String) : Bool :=
  (!s.toList.isEmpty) && s.toList.all (fun c => c = '-' || isPySpace c)

/-- Lines 182-185: strip the project column value again, and add its
lower-casing to the set unless empty or a dash/space run. -/
def addProjectVal (hcols cols ps : List String) : List String :=
  let v := pyStrip (cols.getD (idxOfStr "project" hcols) "")
  if (v != "") && (!isDashSpaceRun v) then insertUniq ps (pyLower v) else ps

/-- The table scanner's state: `header_found`, `header_cols`, `projects`. -/
structure TableState where
  headerFound : Bool
  headerCols : List String
  projects : List String

/-- One iteration of the `for line in lines` loop at src/agent.py:170-185. -/
def tableStep (st : TableState) (line : String) : TableState :=
  if !st.headerFound && strContains line "|" then
    let hcols := normCols line
    { headerFound := hcols.contains "project", headerCols := hcols,
      projects := st.projects }
  else if st.headerFound then
    if isSepLine line then st
    else if strContains line "|" then
      let cols := splitPipes line
      if st.headerCols ≠ [] ∧ cols.length = st.headerCols.length then
        { st with projects := addProjectVal st.headerCols cols st.projects }
      else st
    else st
  else st

/-- The projects extracted from the schedule table (the `if` branch at
src/agent.py:166-188). -/
def tableProjects (content : String) : List String :=
  ((splitLines content).foldl tableStep ⟨false, [], []⟩).projects

/-- The guard at src/agent.py:166: `"Project" in content and "|" in content`.
When false the code raises `ValueError`, caught by the same `except`. -/
def scheduleGuard (content : String) : Bool :=
  strContains content "Project" && strContains content "|"

/-- Line 201: `if token and len(token) > 2: candidate_projects.add(token.lower())`. -/
def addToken (a : List String) (t : String) : List String :=
  if (t != "") && decide (2 < t.length) then insertUniq a (pyLower t) else a

/-- Lines 195-202: tokenize one file's name on `\W+` and add the usable
tokens; directories are skipped. -/
def addFileTokens (acc : List String) (f : FileInfo) : List String :=
  if f.typ ≠ "file" then acc
  else ((splitNonWord f.name.toList).map String.mk).foldl addToken acc

/-- The fallback token set built from repository file names
(src/agent.py:193-205). -/
def fallbackList (files : List FileInfo) : List String :=
  files.foldl addFileTokens []

/-- `ReportExtractor.list_possible_projects(github_client)`: the `try` covers
the schedule read and the table scan; any failure there (including the
explicit `ValueError` when the guard fails) selects the file-name fallback.
A failure of `list_repo_files` inside the `except` handler is uncaught. -/
def list_possible_projects {ε : Type} (schedule : Except ε String)
    (repoFiles : Except ε (List FileInfo)) : Except ε (List String) :=
  match schedule with
  | .ok content =>
    if scheduleGuard content then .ok (tableProjects content)
    else
      match repoFiles with
      | .error e => .error e
      | .ok files => .ok (fallbackList files)
  | .error _ =>
    match repoFiles with
    | .error e => .error e
    | .ok files => .ok (fallbackList files)

/-! ## ReportExtractor.determine_project_for_pr (src/agent.py:207-215) -/

/-- `f"{title} {body} {description}".lower()`. -/
def prBlob (pr : PullRequest) : String :=
  pyLower (pr.title ++ " " ++ pr.body ++ " " ++ pr.description)

/-- `determine_project_for_pr`: first candidate occurring in the blob. -/
def determine_project_for_pr (pr : PullRequest) (candidates : List String) :
    Option String :=
  candidates.find? (fun project => strContains (prBlob pr) project)

/-! ## ReportExtractor report collection (src/agent.py:217-253) -/

/-- `filter_reports(files, project_name)`: keep files whose name contains
the (escaped, case-insensitive) project name; `re.escape` + `search` with
`re.IGNORECASE` is case-insensitive substring containment. -/
def filter_reports (files : List FileInfo) (projectName : String) : List FileInfo :=
  if projectName = "" then []
  else files.filter (fun f => f.typ = "file" && strContains (pyLower f.name) (pyLower projectName))

/-- The content-fetch loop of `extract_reports_from_repo` (lines 229-233):
download each matching file, keep contents that contain the project name
case-insensitively; a failed download propagates. -/
def collectRepoReports {σ ε : Type} (env : Env σ ε) (projectName : String) :
    List FileInfo → Except ε (List String)
  | [] => .ok []
  | f :: fs =>
    match env.getFileContent f with
    | .error e => .error e
    | .ok content =>
      match collectRepoReports env projectName fs with
      | .error e => .error e
      | .ok rest =>
        .ok (if strContains (pyLower content) (pyLower projectName)
             then content :: rest else rest)

/-- `extract_reports_from_repo(github_client, project_name)`. -/
def extract_reports_from_repo {σ ε : Type} (env : Env σ ε) (projectName : String) :
    Except ε (List String) :=
  match env.repoFiles with
  | .error e => .error e
  | .ok files => collectRepoReports env projectName (filter_reports files projectName)

/-- The PR-file content loop of `extract_reports_from_pr` (lines 240-244):
fetch each changed file's content, keep the non-empty ones; a failed fetch
propagates. -/
def collectPrContents {σ ε : Type} (env : Env σ ε) :
    List FileInfo → Except ε (List String)
  | [] => .ok []
  | f :: fs =>
    match env.getFileContent f with
    | .error e => .error e
    | .ok content =>
      match collectPrContents env fs with
      | .error e => .error e
      | .ok rest => .ok (if content = "" then rest else content :: rest)

/-- The text fallback of `extract_reports_from_pr` (lines 248-253):
`f"{body}\n{description}".strip()` as a single synthetic report, or no
report when that is empty. The title is not part of it. -/
def prTextReports (pr : PullRequest) : List String :=
  let content := pyStrip (pr.body ++ "\n" ++ pr.description)
  if content = "" then [] else [content]

/-- `extract_reports_from_pr(pr, github_client)` (src/agent.py:236-253). -/
def extract_reports_from_pr {σ ε : Type} (env : Env σ ε) (pr : PullRequest) :
    Except ε (List String) :=
  match pr.number with
  | some n =>
    match env.getPrFiles n with
    | .error e => .error e
    | .ok files =>
      match collectPrContents env files with
      | .error e => .error e
      | .ok reports => if reports ≠ [] then .ok reports else .ok (prTextReports pr)
  | none => .ok (prTextReports pr)

/-! ## AnalysisEngine prompts and ResultManager output (src/agent.py:91-138, 260-264) -/

/-- The per-report prompt of `analyze_single_report` (src/agent.py:117-123). -/
def singleReportPrompt (report : String) (idx : Nat) : String :=
  "Analyze the following report (file " ++ toString idx ++
  ") and provide your thinking process step by step. " ++
  "Make sure to retain all important attributes (e.g. maintenance, trends, risks, contributor details) " ++
  "from the report. Report:\n\n" ++ report ++
  "\n\nYour detailed analysis (chain-of-thought):"

/-- `"\n\n".join(...)` (Python). -/
def joinTexts (sep : String) : List String → String
  | [] => ""
  | [a] => a
  | a :: rest => a ++ sep ++ joinTexts sep rest

/-- `"\n\n".join(analysis_steps)`. -/
def joinSteps (steps : List String) : String :=
  joinTexts "\n\n" steps

/-- The aggregation prompt of `analyze_reports` (src/agent.py:93-98). -/
def finalPrompt (steps : List String) : String :=
  "Based on the following individual analysis steps, produce a comprehensive evaluation summary " ++
  "with your detailed chain-of-thought. Retain all crucial attributes and include your reasoning process:\n\n" ++
  joinSteps steps ++ "\n\nFinal Summary:"

/-- `f"Step {idx} Analysis:\n{step}"` (src/agent.py:303). -/
def stepText (idx : Nat) (thought : String) : String :=
  "Step " ++ toString idx ++ " Analysis:\n" ++ thought

/-- `ResultManager.write_output(project, content)` writes exactly
`f"{project}:\n\n{content}\n"`, overwriting the file (src/agent.py:260-264). -/
def formatOutput (project content : String) : String :=
  project ++ ":\n\n" ++ content ++ "\n"

/-! ## AIAgent pipeline and orchestrator (src/agent.py:285-321) -/

/-- The per-report loop of `process_pull_request` (src/agent.py:300-305):
analyse report `idx`, append `Step idx Analysis`, and overwrite the result
file with the join of all steps so far. Returns the final service state,
the ordered list of file contents written (the ResultSink invocations), and
either the accumulated steps or the first error, which aborts the loop
before any further write. `analyze_single_report` strips the raw response. -/
def stepLoop {σ ε : Type} (gen : σ → String → σ × Except ε String) (project : String) :
    σ → List String → Nat → List String → σ × List String × Except ε (List String)
  | s, [], _, steps => (s, [], .ok steps)
  | s, report :: rest, idx, steps =>
    match gen s (singleReportPrompt report idx) with
    | (s', .error e) => (s', [], .error e)
    | (s', .ok raw) =>
      let steps' := steps ++ [stepText idx (pyStrip raw)]
      let w := formatOutput project (joinSteps steps')
      match stepLoop gen project s' rest (idx + 1) steps' with
      | (s'', ws, res) => (s'', w :: ws, res)

/-- The `if reports:` block of `process_pull_request` (src/agent.py:298-309):
the per-report loop, then one `analyze_reports` call on the accumulated
steps and a final overwrite with `Final Summary:\n...`; with no reports,
nothing is written. `analyze_reports` strips the raw response. -/
def runAnalysisPipeline {σ ε : Type} (gen : σ → String → σ × Except ε String)
    (s : σ) (project : String) (reports : List String) :
    σ × List String × Except ε Unit :=
  if reports.isEmpty then (s, [], .ok ())
  else
    match stepLoop gen project s reports 1 [] with
    | (s1, ws, .error e) => (s1, ws, .error e)
    | (s1, ws, .ok steps) =>
      match gen s1 (finalPrompt steps) with
      | (s2, .error e) => (s2, ws, .error e)
      | (s2, .ok raw) =>
        (s2, ws ++ [formatOutput project ("Final Summary:\n" ++ pyStrip raw)], .ok ())

/-- `AIAgent.process_pull_request(pr, candidate_projects)`
(src/agent.py:285-311): resolve the project (skip when unresolved), collect
PR reports then repository reports, and run the pipeline. Any `.error` from
a collaborator propagates out of this pull request's processing. -/
def process_pull_request {σ ε : Type} (env : Env σ ε) (s : σ) (pr : PullRequest)
    (candidates : List String) : σ × List String × Except ε Unit :=
  match determine_project_for_pr pr candidates with
  | none => (s, [], .ok ())
  | some project =>
    match extract_reports_from_pr env pr with
    | .error e => (s, [], .error e)
    | .ok rs1 =>
      match extract_reports_from_repo env project with
      | .error e => (s, [], .error e)
      | .ok rs2 => runAnalysisPipeline env.gen s project (rs1 ++ rs2)

/-- The `for pr in pull_requests` loop of `AIAgent.run` (src/agent.py:320-321):
there is no exception handler around `process_pull_request`, so an `.error`
from one pull request ends the loop; writes accumulate in order. -/
def runLoop {σ ε : Type} (env : Env σ ε) (candidates : List String) :
    σ → List PullRequest → σ × List String × Except ε Unit
  | s, [] => (s, [], .ok ())
  | s, pr :: rest =>
    match process_pull_request env s pr candidates with
    | (s', ws, .error e) => (s', ws, .error e)
    | (s', ws, .ok _) =>
      match runLoop env candidates s' rest with
      | (s'', ws', res) => (s'', ws ++ ws', res)

/-- `AIAgent.run()` (src/agent.py:313-321): discover candidates once, list
the open pull requests, and process each in order. -/
def AIAgent_run {σ ε : Type} (env : Env σ ε) (s : σ) : σ × List String × Except ε Unit :=
  match list_possible_projects env.schedule env.repoFiles with
  | .error e => (s, [], .error e)
  | .ok candidates =>
    match env.openPRs with
    | .error e => (s, [], .error e)
    | .ok prs => runLoop env candidates s prs

/-! ## Specification-side definitions

These follow the wording of the spec (§4.1 discovery, §4.3 persistence),
to be compared with the code-derived definitions above. -/

/-- Spec §4.1: "the first row containing a pipe-delimited header whose
normalized columns include project". -/
def isProjectHeader (line : String) : Bool :=
  strContains line "|" && (normCols line).contains "project"

/-- Spec §4.1, one data row: skip separator rows; from every pipe-delimited
row with the header's column count, extract the project column, normalize
(trim, lowercase), and add it unless empty or composed only of separator
characters. -/
def specRowStep (hcols ps : List String) (line : String) : List String :=
  if isSepLine line then ps
  else if strContains line "|" then
    if (splitPipes line).length = hcols.length then
      addProjectVal hcols (splitPipes line) ps
    else ps
  else ps

/-- Spec §4.1: process every row after the header. -/
def specRows (hcols : List String) (lines ps : List String) : List String :=
  lines.foldl (specRowStep hcols) ps

/-- Spec §4.1: skip rows before the header, locate the first project
header, then collect from the subsequent rows. -/
def specFrom : List String → List String → List String
  | [], ps => ps
  | l :: ls, ps => if isProjectHeader l then specRows (normCols l) ls ps else specFrom ls ps

/-- Spec §4.1: the candidate set a schedule document's table describes. -/
def specScheduleProjects (content : String) : List String :=
  specFrom (splitLines content) []

/-- The texts `Step idx Analysis:\n...` for consecutive indices. -/
def mkStepTexts : Nat → List String → List String
  | _, [] => []
  | idx, t :: ts => stepText idx t :: mkStepTexts (idx + 1) ts

/-- Spec §4.3: the ResultSink contents the crash-resilience contract
prescribes — after step `k` completes, the sink holds the full ordered
concatenation of steps `1..k`. Write `j` (0-based) is the formatted join of
the first `j+1` step texts appended to the already accumulated `steps`. -/
def prefixJoinWrites (project : String) : List String → Nat → List String → List String
  | _, _, [] => []
  | steps, idx, t :: ts =>
    formatOutput project (joinSteps (steps ++ [stepText idx t])) ::
      prefixJoinWrites project (steps ++ [stepText idx t]) (idx + 1) ts

/-! ## Theorems -/

theorem matchLeadingToken_ne_nil {l tok : List Char}
    (h : matchLeadingToken l = some tok) : tok ≠ [] := by
  simp only [matchLeadingToken] at h
  split at h
  · exact absurd h (by simp)
  · next he =>
    split at h
    · exact absurd h (by simp)
    · split at h
      · rw [Option.some.injEq] at h
        subst h
        exact fun hc => he (by rw [List.isEmpty_iff]; exact hc)
      · exact absurd h (by simp)

/-- The claim's test vector: the pull request of the repository's own unit
test (test_agent.py). -/
def fireflyPr : PullRequest :=
  { number := none
    title := "Create 2025-annual-Hyperledger-FireFly.md"
    body := "This PR contains the annual report. Project name: Hyperledger FireFly."
    description := "" }

/-- C3: on the FireFly pull request, rule (1) rejects "Create", the body
pattern of rule (2) matches, and the fallback is never consulted — but the
captured token of `([\w\-]+)` stops at the first space, so the code returns
"Hyperledger", not the claimed (and unit-tested) "Hyperledger FireFly". -/
theorem extract_name_firefly_pr_eval (f : String → String → String) :
    extract_project_name_from_pr fireflyPr (some f) = some "Hyperledger" := rfl

/-- C6: correlation returns a candidate exactly when one occurs as a
substring of the lower-cased title+body+description blob, and any returned
candidate is a member of the candidate list occurring in the blob. -/
theorem correlation_finds_candidate_iff (pr : PullRequest) (cands : List String) :
    (match determine_project_for_pr pr cands with
     | some c => c ∈ cands ∧ strContains (prBlob pr) c = true
     | none => ∀ c ∈ cands, strContains (prBlob pr) c = false) := by
  rcases h : determine_project_for_pr pr cands with _ | c
  · intro c hc
    have hnone := List.find?_eq_none.mp h c hc
    exact Bool.not_eq_true _ |>.mp hnone
  · exact ⟨List.mem_of_find?_eq_some h, List.find?_some h⟩

/-- C8: a title beginning with a `[\w\-]+` token followed by `[\s:]`, whose
token is not "create" case-insensitively, makes extraction return that token
with its case unchanged. -/
theorem title_token_extracted_unchanged (pr : PullRequest)
    (llm : Option (String → String → String)) (tok : List Char)
    (hm : matchLeadingToken pr.title.toList = some tok)
    (hc : pyLower (String.mk tok) ≠ "create") :
    extract_project_name_from_pr pr llm = some (String.mk tok) := by
  have hne : tok ≠ [] := matchLeadingToken_ne_nil hm
  have hne' : String.mk tok ≠ "" := by
    intro hcon
    apply hne
    have := congrArg String.toList hcon
    simpa using this
  have husable : usableToken (some (String.mk tok)) = true := by
    unfold usableToken
    rw [Bool.and_eq_true, bne_iff_ne, bne_iff_ne]
    exact ⟨hne', hc⟩
  unfold extract_project_name_from_pr
  rw [hm]
  show (if usableToken (some (String.mk tok)) then some (String.mk tok) else _) = _
  rw [if_pos husable]

theorem title_token_witness :
    extract_project_name_from_pr
      { number := none, title := "FireFly: 2025 annual", body := "", description := "" }
      none = some (String.mk "FireFly".toList) :=
  title_token_extracted_unchanged _ none "FireFly".toList (by decide) (by decide)

/-- C10: correlation lowercases only the pull-request text, so a candidate
containing an upper-case character can never be the value returned. -/
theorem uppercase_candidate_never_returned (pr : PullRequest)
    (cands : List String) (c : String)
    (hup : c.toList.any isUpperChar = true) :
    determine_project_for_pr pr cands ≠ some c := by
  intro h
  have hp : strContains (prBlob pr) c = true := List.find?_some h
  unfold strContains at hp
  rcases List.any_eq_true.mp hup with ⟨x, hxc, hxu⟩
  have hxblob : x ∈ (prBlob pr).toList := infixCheck_subset hp hxc
  have hxlow : ∃ y, x = lowerChar y := by
    apply mem_pyLower_toList (s := pr.title ++ " " ++ pr.body ++ " " ++ pr.description)
    exact hxblob
  rcases hxlow with ⟨y, hy⟩
  rw [hy, lowerChar_not_upper] at hxu
  exact Bool.false_ne_true hxu

theorem uppercase_candidate_witness :
    determine_project_for_pr
      { number := none, title := "", body := "Hyperledger FireFly annual report",
        description := "" } ["FireFly"] ≠ some "FireFly" :=
  uppercase_candidate_never_returned _ _ _ (by decide)

/-! ### C4: pull-request report collection text fallback -/

/-- Transport for the C4 counterexample: pull request 1 has no changed
files; every other read is inert. -/
def envNoFiles : Env Unit Nat :=
  { schedule := .error 0
    repoFiles := .ok []
    openPRs := .ok []
    getPrFiles := fun _ => .ok []
    getFileContent := fun _ => .ok ""
    gen := fun s _ => (s, .ok "") }

/-- A pull request whose only text is its title. -/
def titleOnlyPr : PullRequest :=
  { number := some 1, title := "T", body := "", description := "" }

/-- C4 counterexample: no changed file yields content and the
title+body+description concatenation is "T", nonempty — so the claim
demands one synthetic report — yet the code returns no report at all,
because its text fallback uses only body and description, never the title. -/
theorem pr_collection_drops_title :
    extract_reports_from_pr envNoFiles titleOnlyPr = .ok [] ∧
      titleOnlyPr.title ++ titleOnlyPr.body ++ titleOnlyPr.description = "T" ∧
      "T" ≠ "" :=
  ⟨rfl, rfl, by decide⟩

theorem collectPrContents_all_empty {σ ε : Type} (env : Env σ ε) (fs : List FileInfo)
    (h : ∀ f ∈ fs, env.getFileContent f = .ok "") :
    collectPrContents env fs = .ok [] := by
  induction fs with
  | nil => rfl
  | cons f fs ih =>
    unfold collectPrContents
    rw [h f (List.mem_cons_self f fs), ih (fun g hg => h g (List.mem_cons_of_mem f hg))]
    simp

/-- C4 amended: for every pull request none of whose changed files yields
non-empty content, collection returns exactly one synthetic report equal to
the whitespace-stripped concatenation of body, a newline, and description —
the title is not included — and the empty list when that text is empty. -/
theorem pr_collection_text_fallback {σ ε : Type} (env : Env σ ε) (pr : PullRequest)
    (h : ∀ n, pr.number = some n →
      ∃ fs, env.getPrFiles n = .ok fs ∧ ∀ f ∈ fs, env.getFileContent f = .ok "") :
    extract_reports_from_pr env pr =
      .ok (if pyStrip (pr.body ++ "\n" ++ pr.description) = "" then []
           else [pyStrip (pr.body ++ "\n" ++ pr.description)]) := by
  cases hn : pr.number with
  | none =>
    unfold extract_reports_from_pr
    rw [hn]
    rfl
  | some n =>
    rcases h n hn with ⟨fs, hfs, hemp⟩
    unfold extract_reports_from_pr
    rw [hn]
    dsimp only
    rw [hfs]
    dsimp only
    rw [collectPrContents_all_empty env fs hemp]
    simp [prTextReports]

theorem pr_collection_text_fallback_witness :
    extract_reports_from_pr
      { schedule := .error 0, repoFiles := .ok [], openPRs := .ok [],
        getPrFiles := fun _ => .ok [{ typ := "file", name := "a.md" }],
        getFileContent := fun _ => .ok "",
        gen := fun (s : Unit) _ => (s, .ok ("" : String)) }
      { number := some 5, title := "T", body := " hello ", description := "" } =
      .ok (if pyStrip (" hello " ++ "\n" ++ "") = "" then []
           else [pyStrip (" hello " ++ "\n" ++ "")]) :=
  pr_collection_text_fallback (ε := Nat) _ _
    (fun _ _ => ⟨[{ typ := "file", name := "a.md" }], rfl, fun _ _ => rfl⟩)

/-! ### C7: discovery fallback on schedule failure -/

theorem mem_insertUniq {l : List String} {x y : String} :
    x ∈ insertUniq l y ↔ x ∈ l ∨ x = y := by
  unfold insertUniq
  split
  · next hy =>
    constructor
    · exact Or.inl
    · rintro (h | h)
      · exact h
      · rw [h]; exact hy
  · simp [List.mem_append]

theorem tokenGood_iff (t : String) :
    ((t != "") && decide (2 < t.length)) = true ↔ 2 < t.length := by
  rw [Bool.and_eq_true, bne_iff_ne, decide_eq_true_iff]
  constructor
  · exact fun hh => hh.2
  · intro hh
    refine ⟨?_, hh⟩
    intro he
    subst he
    exact absurd hh (by decide)

theorem mem_addToken_fold (toks : List String) (acc : List String) (x : String) :
    x ∈ toks.foldl addToken acc ↔
      x ∈ acc ∨ ∃ t ∈ toks, 2 < t.length ∧ x = pyLower t := by
  induction toks generalizing acc with
  | nil => simp
  | cons t ts ih =>
    rw [List.foldl_cons, ih]
    unfold addToken
    by_cases hg : ((t != "") && decide (2 < t.length)) = true
    · rw [if_pos hg, mem_insertUniq]
      rw [tokenGood_iff] at hg
      constructor
      · rintro ((h | h) | h)
        · exact Or.inl h
        · exact Or.inr ⟨t, List.mem_cons_self t ts, hg, h⟩
        · rcases h with ⟨u, hu, hlen, hx⟩
          exact Or.inr ⟨u, List.mem_cons_of_mem t hu, hlen, hx⟩
      · rintro (h | ⟨u, hu, hlen, hx⟩)
        · exact Or.inl (Or.inl h)
        · rcases List.mem_cons.mp hu with rfl | hu'
          · exact Or.inl (Or.inr hx)
          · exact Or.inr ⟨u, hu', hlen, hx⟩
    · rw [if_neg hg]
      have hbad : ¬ 2 < t.length := fun hc => hg ((tokenGood_iff t).mpr hc)
      constructor
      · rintro (h | ⟨u, hu, hlen, hx⟩)
        · exact Or.inl h
        · exact Or.inr ⟨u, List.mem_cons_of_mem t hu, hlen, hx⟩
      · rintro (h | ⟨u, hu, hlen, hx⟩)
        · exact Or.inl h
        · rcases List.mem_cons.mp hu with rfl | hu'
          · exact absurd hlen hbad
          · exact Or.inr ⟨u, hu', hlen, hx⟩

theorem mem_fileFold (files : List FileInfo) (acc : List String) (x : String) :
    x ∈ files.foldl addFileTokens acc ↔
      x ∈ acc ∨ ∃ f ∈ files, f.typ = "file" ∧
        ∃ t ∈ (splitNonWord f.name.toList).map String.mk, 2 < t.length ∧ x = pyLower t := by
  induction files generalizing acc with
  | nil => simp
  | cons f fs ih =>
    rw [List.foldl_cons, ih]
    unfold addFileTokens
    by_cases ht : f.typ = "file"
    · rw [if_neg (by simpa using ht), mem_addToken_fold]
      constructor
      · rintro ((h | ⟨t, htm, hlen, hx⟩) | ⟨g, hg, hgt, rest⟩)
        · exact Or.inl h
        · exact Or.inr ⟨f, List.mem_cons_self f fs, ht, t, htm, hlen, hx⟩
        · exact Or.inr ⟨g, List.mem_cons_of_mem f hg, hgt, rest⟩
      · rintro (h | ⟨g, hg, hgt, rest⟩)
        · exact Or.inl (Or.inl h)
        · rcases List.mem_cons.mp hg with rfl | hg'
          · exact Or.inl (Or.inr rest)
          · exact Or.inr ⟨g, hg', hgt, rest⟩
    · rw [if_pos (by simpa using ht)]
      constructor
      · rintro (h | ⟨g, hg, hgt, rest⟩)
        · exact Or.inl h
        · exact Or.inr ⟨g, List.mem_cons_of_mem f hg, hgt, rest⟩
      · rintro (h | ⟨g, hg, hgt, rest⟩)
        · exact Or.inl h
        · rcases List.mem_cons.mp hg with rfl | hg'
          · exact absurd hgt ht
          · exact Or.inr ⟨g, hg', hgt, rest⟩

/-- C7: whenever the schedule read fails, or its content fails the table
guard (the locally raised `ValueError`), discovery returns — without
surfacing any failure — the fallback candidate list, whose members are
exactly the lower-casings of the file-name tokens longer than 2 characters
from the repository's files. -/
theorem schedule_failure_falls_back {ε : Type} (sched : Except ε String)
    (files : List FileInfo)
    (h : (∃ e, sched = .error e) ∨ ∃ c, sched = .ok c ∧ scheduleGuard c = false) :
    list_possible_projects sched (.ok files) = .ok (fallbackList files) ∧
      ∀ x, x ∈ fallbackList files ↔
        ∃ f ∈ files, f.typ = "file" ∧
          ∃ t ∈ (splitNonWord f.name.toList).map String.mk, 2 < t.length ∧ x = pyLower t := by
  constructor
  · rcases h with ⟨e, he⟩ | ⟨c, hc, hg⟩
    · rw [he]; rfl
    · rw [hc]
      simp [list_possible_projects, hg]
  · intro x
    unfold fallbackList
    rw [mem_fileFold]
    simp

theorem schedule_failure_witness :
    list_possible_projects (Except.error (3 : Nat))
        (.ok [{ typ := "file", name := "2025-annual-FireFly.md" }]) =
      .ok (fallbackList [{ typ := "file", name := "2025-annual-FireFly.md" }]) :=
  (schedule_failure_falls_back (Except.error 3) _ (Or.inl ⟨3, rfl⟩)).1

/-! ### C2: incremental persistence of analysis steps -/

theorem stepLoop_writes_spec {σ ε : Type} (gen : σ → String → σ × Except ε String)
    (project : String) :
    ∀ (reports : List String) (s : σ) (idx : Nat) (steps : List String),
      ∃ ts : List String,
        (stepLoop gen project s reports idx steps).2.1 =
          prefixJoinWrites project steps idx ts ∧
        (match (stepLoop gen project s reports idx steps).2.2 with
         | .ok out => out = steps ++ mkStepTexts idx ts ∧ ts.length = reports.length
         | .error _ => ts.length < reports.length) := by
  intro reports
  induction reports with
  | nil =>
    intro s idx steps
    exact ⟨[], rfl, by simp [stepLoop, mkStepTexts]⟩
  | cons r rest ih =>
    intro s idx steps
    rcases hg : gen s (singleReportPrompt r idx) with ⟨s', res⟩
    cases res with
    | error e =>
      refine ⟨[], ?_, ?_⟩
      · simp only [stepLoop]
        rw [hg]
        rfl
      · simp only [stepLoop]
        rw [hg]
        simp
    | ok raw =>
      obtain ⟨ts', h1, h2⟩ := ih s' (idx + 1) (steps ++ [stepText idx (pyStrip raw)])
      rcases hrec : stepLoop gen project s' rest (idx + 1)
          (steps ++ [stepText idx (pyStrip raw)]) with ⟨s2, ws, res⟩
      rw [hrec] at h1 h2
      refine ⟨pyStrip raw :: ts', ?_, ?_⟩
      · simp only [stepLoop]
        rw [hg]
        dsimp only
        rw [hrec]
        dsimp only at h1 ⊢
        rw [h1]
        simp [prefixJoinWrites]
      · simp only [stepLoop]
        rw [hg]
        dsimp only
        rw [hrec]
        dsimp only at h2 ⊢
        cases res with
        | error e =>
          have hlt : ts'.length < rest.length := by simpa using h2
          simp only [List.length_cons]
          omega
        | ok out =>
          obtain ⟨ho, hl⟩ := h2
          refine ⟨?_, by simpa using hl⟩
          rw [ho]
          simp [mkStepTexts]

/-- C2: the per-report loop's sequence of ResultSink invocations is exactly
the prefix-concatenation sequence: the k-th write (0-based) holds the
formatted join of step texts 1..k+1, so after analysing report k the sink
has been given steps 1..k, and a loop that fails on a later report leaves
the join of all completed steps as the last persisted content. On success
the accumulated steps are the full step-text sequence, one per report. -/
theorem pipeline_writes_are_prefix_joins {σ ε : Type}
    (gen : σ → String → σ × Except ε String) (project : String)
    (reports : List String) (s : σ) :
    ∃ ts : List String,
      (stepLoop gen project s reports 1 []).2.1 = prefixJoinWrites project [] 1 ts ∧
      (match (stepLoop gen project s reports 1 []).2.2 with
       | .ok out => out = mkStepTexts 1 ts ∧ ts.length = reports.length
       | .error _ => ts.length < reports.length) := by
  obtain ⟨ts, h1, h2⟩ := stepLoop_writes_spec gen project reports s 1 []
  refine ⟨ts, h1, ?_⟩
  rcases hres : (stepLoop gen project s reports 1 []).2.2 with e | out
  · rw [hres] at h2
    exact h2
  · rw [hres] at h2
    simpa using h2

/-- The `k`-th entry of the prescribed write sequence is the formatted join
of the first `k+1` step texts (appended to the steps already accumulated). -/
theorem prefixJoinWrites_get? (project : String) :
    ∀ (ts steps : List String) (idx k : Nat), k < ts.length →
      (prefixJoinWrites project steps idx ts).get? k =
        some (formatOutput project
          (joinSteps (steps ++ mkStepTexts idx (ts.take (k + 1))))) := by
  intro ts
  induction ts with
  | nil =>
    intro steps idx k hk
    exact absurd hk (Nat.not_lt_zero k)
  | cons t ts ih =>
    intro steps idx k hk
    cases k with
    | zero => simp [prefixJoinWrites, mkStepTexts]
    | succ k' =>
      have hk' : k' < ts.length := by simpa using hk
      have := ih (steps ++ [stepText idx t]) (idx + 1) k' hk'
      simp only [prefixJoinWrites, List.get?_cons_succ, List.take_succ_cons, mkStepTexts]
      rw [this]
      simp

/-! ### C9: determinism of the pipeline -/

theorem stepLoop_state_blind {σ ε : Type} (gen : σ → String → σ × Except ε String)
    (f : String → String) (hdet : ∀ s p, (gen s p).2 = .ok (f p)) (project : String) :
    ∀ (reports : List String) (idx : Nat) (steps : List String) (s₁ s₂ : σ),
      (stepLoop gen project s₁ reports idx steps).2 =
        (stepLoop gen project s₂ reports idx steps).2 := by
  intro reports
  induction reports with
  | nil => intro idx steps s₁ s₂; rfl
  | cons r rest ih =>
    intro idx steps s₁ s₂
    rcases hg1 : gen s₁ (singleReportPrompt r idx) with ⟨t₁, r₁⟩
    rcases hg2 : gen s₂ (singleReportPrompt r idx) with ⟨t₂, r₂⟩
    have e1 : r₁ = .ok (f (singleReportPrompt r idx)) := by
      have := hdet s₁ (singleReportPrompt r idx)
      rw [hg1] at this
      exact this
    have e2 : r₂ = .ok (f (singleReportPrompt r idx)) := by
      have := hdet s₂ (singleReportPrompt r idx)
      rw [hg2] at this
      exact this
    subst e1
    subst e2
    simp only [stepLoop]
    rw [hg1, hg2]
    dsimp only
    rcases hr1 : stepLoop gen project t₁ rest (idx + 1)
        (steps ++ [stepText idx (pyStrip (f (singleReportPrompt r idx)))]) with ⟨u₁, ws₁, res₁⟩
    rcases hr2 : stepLoop gen project t₂ rest (idx + 1)
        (steps ++ [stepText idx (pyStrip (f (singleReportPrompt r idx)))]) with ⟨u₂, ws₂, res₂⟩
    have hih := ih (idx + 1) (steps ++ [stepText idx (pyStrip (f (singleReportPrompt r idx)))]) t₁ t₂
    rw [hr1, hr2] at hih
    dsimp only at hih ⊢
    rw [Prod.mk.injEq] at hih
    rw [hih.1, hih.2]

/-- C9: with a deterministic Inference Service (`generate` a function of the
prompt alone), two pipeline executions on the same resolved project and the
same ordered report texts produce identical write sequences and outcome —
in particular byte-identical final persisted content — whatever the
service's internal states were. -/
theorem pipeline_deterministic {σ ε : Type} (gen : σ → String → σ × Except ε String)
    (f : String → String) (hdet : ∀ s p, (gen s p).2 = .ok (f p))
    (project : String) (reports : List String) (s₁ s₂ : σ) :
    (runAnalysisPipeline gen s₁ project reports).2 =
      (runAnalysisPipeline gen s₂ project reports).2 := by
  unfold runAnalysisPipeline
  by_cases hr : reports.isEmpty
  · rw [if_pos hr, if_pos hr]
  · rw [if_neg hr, if_neg hr]
    have hsl := stepLoop_state_blind gen f hdet project reports 1 [] s₁ s₂
    rcases h1 : stepLoop gen project s₁ reports 1 [] with ⟨u₁, ws₁, res₁⟩
    rcases h2 : stepLoop gen project s₂ reports 1 [] with ⟨u₂, ws₂, res₂⟩
    rw [h1, h2] at hsl
    dsimp only at hsl
    rw [Prod.mk.injEq] at hsl
    obtain ⟨hw, hres⟩ := hsl
    subst hw
    subst hres
    cases res₁ with
    | error e => rfl
    | ok steps =>
      dsimp only
      rcases hga : gen u₁ (finalPrompt steps) with ⟨v₁, q₁⟩
      rcases hgb : gen u₂ (finalPrompt steps) with ⟨v₂, q₂⟩
      have ea : q₁ = .ok (f (finalPrompt steps)) := by
        have := hdet u₁ (finalPrompt steps)
        rw [hga] at this
        exact this
      have eb : q₂ = .ok (f (finalPrompt steps)) := by
        have := hdet u₂ (finalPrompt steps)
        rw [hgb] at this
        exact this
      subst ea
      subst eb
      rfl

theorem pipeline_deterministic_witness :
    (runAnalysisPipeline (ε := Nat) (fun (s : Bool) (p : String) => (!s, .ok p))
        true "proj" ["r"]).2 =
      (runAnalysisPipeline (ε := Nat) (fun (s : Bool) (p : String) => (!s, .ok p))
        false "proj" ["r"]).2 :=
  pipeline_deterministic _ (fun p => p) (fun _ _ => rfl) "proj" ["r"] true false

/-! ### C1: a transport failure aborts the whole run -/

/-- A schedule document whose table lists the single project `alpha`. -/
def schedDocAlpha : String := "| Project | Status |\n| alpha | active |"

/-- First open pull request: its changed-files read raises. -/
def prOne : PullRequest :=
  { number := some 1, title := "", body := "alpha report", description := "" }

/-- Second open pull request: identical, but its reads succeed. -/
def prTwo : PullRequest :=
  { number := some 2, title := "", body := "alpha report", description := "" }

/-- Transport in which reading pull request 1's changed files fails with
error 7 and everything else succeeds. -/
def envAbort : Env Unit Nat :=
  { schedule := .ok schedDocAlpha
    repoFiles := .ok []
    openPRs := .ok [prOne, prTwo]
    getPrFiles := fun n => if n = 1 then .error 7 else .ok []
    getFileContent := fun _ => .ok ""
    gen := fun s _ => (s, .ok "ok") }

/-- C1 counterexample: the transport failure raised while processing the
first pull request aborts the whole run — `run` ends with that error and
produces no writes at all — even though the second pull request, processed
on its own from the same state, succeeds and persists output. The claimed
isolation of failures per pull request does not hold: there is no handler
around `process_pull_request` in `AIAgent.run`. -/
theorem transport_failure_aborts_run :
    AIAgent_run envAbort () = ((), [], .error 7) ∧
      (process_pull_request envAbort () prTwo ["alpha"]).2.2 = .ok () ∧
      (process_pull_request envAbort () prTwo ["alpha"]).2.1 ≠ [] := by
  refine ⟨rfl, rfl, ?_⟩
  decide

/-- C1 amended: a transport failure raised while processing one pull
request aborts that pull request's processing and the entire run: the loop
returns the failure, the writes are exactly those of the earlier successful
pull requests plus those made before the failure, and the pull requests
after the failing one are never processed. -/
theorem runLoop_aborts_at_failure {σ ε : Type} (env : Env σ ε) (cands : List String)
    (s : σ) (xs ys : List PullRequest) (pr : PullRequest) (s₁ s₂ : σ)
    (ws₁ ws₂ : List String) (e : ε)
    (h1 : runLoop env cands s xs = (s₁, ws₁, .ok ()))
    (h2 : process_pull_request env s₁ pr cands = (s₂, ws₂, .error e)) :
    runLoop env cands s (xs ++ pr :: ys) = (s₂, ws₁ ++ ws₂, .error e) := by
  induction xs generalizing s ws₁ with
  | nil =>
    simp only [runLoop] at h1
    rw [Prod.mk.injEq, Prod.mk.injEq] at h1
    obtain ⟨hs, hw, -⟩ := h1
    subst hs
    subst hw
    simp only [List.nil_append, runLoop]
    rw [h2]
  | cons x xs ih =>
    rcases hp : process_pull_request env s x cands with ⟨sx, wsx, resx⟩
    simp only [runLoop] at h1
    rw [hp] at h1
    cases resx with
    | error e' => simp at h1
    | ok u =>
      rcases hr : runLoop env cands sx xs with ⟨sy, wsy, resy⟩
      dsimp only at h1
      rw [hr] at h1
      dsimp only at h1
      rw [Prod.mk.injEq, Prod.mk.injEq] at h1
      obtain ⟨hsy, hwy, hres⟩ := h1
      subst hsy
      subst hres
      have hrec := ih sx wsy hr
      simp only [List.cons_append, runLoop]
      rw [hp]
      dsimp only
      simp only [List.append_eq]
      rw [hrec]
      dsimp only
      rw [← hwy]
      simp [List.append_assoc]

theorem runLoop_aborts_witness :
    runLoop envAbort ["alpha"] () [prOne, prTwo] = ((), [], .error 7) :=
  runLoop_aborts_at_failure envAbort ["alpha"] () [] [prTwo] prOne () () [] [] 7 rfl rfl

/-! ### C5: schedule-table candidate discovery -/

theorem tableStep_found (l : String) (hcols ps : List String) (hne : hcols ≠ []) :
    tableStep ⟨true, hcols, ps⟩ l = ⟨true, hcols, specRowStep hcols ps l⟩ := by
  by_cases hsep : isSepLine l
  · simp [tableStep, specRowStep, hsep]
  · by_cases hpipe : strContains l "|"
    · by_cases hlen : (splitPipes l).length = hcols.length
      · simp [tableStep, specRowStep, hsep, hpipe, hlen, hne]
      · simp [tableStep, specRowStep, hsep, hpipe, hlen]
    · simp [tableStep, specRowStep, hsep, hpipe]

theorem foldl_tableStep_found (lines : List String) :
    ∀ (hcols ps : List String), hcols.contains "project" = true →
      (lines.foldl tableStep ⟨true, hcols, ps⟩).projects = specRows hcols lines ps := by
  induction lines with
  | nil => intro hcols ps _; rfl
  | cons l ls ih =>
    intro hcols ps hc
    have hne : hcols ≠ [] := by
      intro hnil
      subst hnil
      simp at hc
    rw [List.foldl_cons, tableStep_found l hcols ps hne, ih hcols _ hc]
    rfl

theorem foldl_tableStep_scan (lines : List String) :
    ∀ (hc ps : List String),
      (lines.foldl tableStep ⟨false, hc, ps⟩).projects = specFrom lines ps := by
  induction lines with
  | nil => intro hc ps; rfl
  | cons l ls ih =>
    intro hc ps
    rw [List.foldl_cons]
    by_cases hpipe : strContains l "|"
    · by_cases hproj : (normCols l).contains "project"
      · have hproj' : "project" ∈ normCols l := by simpa using hproj
        have hstep : tableStep ⟨false, hc, ps⟩ l = ⟨true, normCols l, ps⟩ := by
          simp [tableStep, hpipe, hproj']
        rw [hstep, foldl_tableStep_found ls (normCols l) ps hproj]
        simp only [specFrom]
        rw [if_pos (by simp [isProjectHeader, hpipe, hproj'])]
      · have hproj' : "project" ∉ normCols l := by simpa using hproj
        have hstep : tableStep ⟨false, hc, ps⟩ l = ⟨false, normCols l, ps⟩ := by
          simp [tableStep, hpipe, hproj']
        rw [hstep, ih (normCols l) ps]
        simp only [specFrom]
        rw [if_neg (by simp [isProjectHeader, hpipe, hproj'])]
    · have hstep : tableStep ⟨false, hc, ps⟩ l = ⟨false, hc, ps⟩ := by
        simp [tableStep, hpipe]
      rw [hstep, ih hc ps]
      simp only [specFrom]
      rw [if_neg (by simp [isProjectHeader, hpipe])]

/-- C5 amended: for a readable schedule document that passes the literal
guard `"Project" in content and "|" in content` (capital P — the code's
extra requirement the original claim lacks), discovery returns exactly the
set the specification's table-reading prescribes: locate the first
pipe-delimited header row whose normalized columns include "project", then
collect the normalized project-column values of every subsequent
pipe-delimited row with the header's column count, skipping separator rows
and values that are empty or dash/space runs. -/
theorem discovery_matches_spec_table {ε : Type} (content : String)
    (repoFiles : Except ε (List FileInfo))
    (h1 : strContains content "Project" = true)
    (h2 : strContains content "|" = true) :
    list_possible_projects (.ok content) repoFiles = .ok (specScheduleProjects content) := by
  have hguard : scheduleGuard content = true := by
    unfold scheduleGuard
    rw [h1, h2]
    rfl
  unfold list_possible_projects
  dsimp only
  rw [if_pos hguard]
  unfold tableProjects specScheduleProjects
  rw [foldl_tableStep_scan]

/-- A schedule document with a lower-case header: it satisfies the claim's
premise (a table whose normalized header includes "project") but not the
code's literal `"Project" in content` guard. -/
def lcDoc : String := "| project | status |\n| fireflyx | active |"

/-- C5 counterexample: on `lcDoc` the specification's table reading yields
the column value "fireflyx", but the code takes the fallback path (here: no
repository files, so no candidates at all) — the claim fails for schedule
documents without the literal substring "Project". -/
theorem discovery_misses_lowercase_header :
    list_possible_projects (Except.ok lcDoc) (Except.ok ([] : List FileInfo))
        = (.ok [] : Except Nat (List String)) ∧
      specScheduleProjects lcDoc = ["fireflyx"] :=
  ⟨rfl, rfl⟩

/-- The claim's concrete table: header `Project | Status`, a separator row,
and the two data rows. -/
def goodDoc : String :=
  "| Project | Status |\n|---------|--------|\n| Hyperledger FireFly | Active |\n| ProjectY | Active |"

theorem discovery_matches_spec_witness :
    list_possible_projects (Except.ok goodDoc) (Except.ok ([] : List FileInfo))
        = (.ok (specScheduleProjects goodDoc) : Except Nat (List String)) ∧
      specScheduleProjects goodDoc = ["hyperledger firefly", "projecty"] :=
  ⟨discovery_matches_spec_table goodDoc _ (by decide) (by decide), by decide⟩
